import Mathlib

/-!
Verification of the batch-scraping pipeline of the flexible-scraping
repository (a React frontend driving a FastAPI backend).

The repository ships the frontend sources (`ScrapingPanel.jsx`,
`UrlGenerator.jsx`, `ResultsViewer`, `HtmlInput.jsx`, `HtmlViewer.jsx`,
`App`) together with a Makefile that starts a `backend/main.py` FastAPI
server; the backend sources themselves (the `/api/scrape-stream`,
`/api/preview-template`, `/api/generate-urls`, `/api/check-robots` and
`/api/parse-html` handlers, i.e. the ScrapeOrchestrator, TemplateExpander,
RobotsChecker and Extractor components) are not part of the shipped tree.
Those components are modelled here from the specification's words; each
such definition carries a `Modelled from the spec:` doc comment.  The
frontend components that are present are embedded directly from the
JavaScript source.
-/

namespace FlexScrape

/-! ## String helpers

JavaScript string primitives used by the sources, embedded over the
character data of a `String` so that they compute by structural recursion.
-/

/-- Embedding of JavaScript `String.prototype.trim`: drop whitespace from
both ends of the string. -/
def jsTrim (s : String) : String :=
  ⟨((s.data.dropWhile Char.isWhitespace).reverse.dropWhile Char.isWhitespace).reverse⟩

/-- Splitting a character list at every occurrence of a separator
character; the result always has one more group than there are
separators. -/
def splitCharAux (sep : Char) : List Char → List (List Char)
  | [] => [[]]
  | c :: rest =>
    match splitCharAux sep rest with
    | [] => [[]]
    | g :: gs => if c = sep then [] :: g :: gs else (c :: g) :: gs

/-- Embedding of JavaScript `str.split(',')`. -/
def jsSplitComma (s : String) : List String :=
  (splitCharAux ',' s.data).map (fun g => ⟨g⟩)

/-- Replace every occurrence of `pat` inside `s` by `rep`, scanning left to
right; `fuel` bounds the scan and is instantiated with the length of the
scanned list, which suffices because every step consumes at least one
character. -/
def replaceAllAux (pat rep : List Char) : Nat → List Char → List Char
  | 0, _ => []
  | _ + 1, [] => []
  | fuel + 1, c :: rest =>
    if pat ≠ [] ∧ pat.isPrefixOf (c :: rest) then
      rep ++ replaceAllAux pat rep fuel ((c :: rest).drop pat.length)
    else
      c :: replaceAllAux pat rep fuel rest

/-- Textual substitution of every occurrence of `\x7bname\x7d` in
`template` by `value` (spec 4.1: "Substitution replaces every occurrence
of `\x7bname\x7d` textually"). -/
def substitute (template name value : String) : String :=
  ⟨replaceAllAux ("\x7b" ++ name ++ "\x7d").data value.data template.data.length template.data⟩

/-! ## Extractor

Modelled from the spec: the Extractor component (spec 4.3) lives in the
missing backend.  `extract(html, selector)` parses the HTML into a
DOM-like tree; the tree (after the parse step has stripped executable
script/style content) is represented by `Node`, and the limited CSS
selector subset (tag, `.class`, `#id`, compound tag+class, descendant
combinator) by `Selector`.
-/

/-- A DOM-like tree node: an element with tag name, optional id attribute,
class list and children, or a text node. -/
inductive Node where
  | elem (tag : String) (idAttr : Option String) (classes : List String) (children : List Node)
  | text (s : String)

/-- The data of an element that selector matching looks at. -/
structure ElemInfo where
  tag : String
  idAttr : Option String
  classes : List String
deriving DecidableEq

/-- One step of the limited CSS selector subset: a tag name, a `.class`, a
`#id`, or a compound `tag.class`. -/
inductive SimpleSelector where
  | tagName (t : String)
  | cls (c : String)
  | idSel (v : String)
  | tagCls (t : String) (c : String)
deriving DecidableEq

/-- A selector of the limited subset: a possibly empty chain of ancestor
steps (descendant combinator) followed by the step the element itself must
match. -/
structure Selector where
  anc : List SimpleSelector
  target : SimpleSelector
deriving DecidableEq

/-- Whether one simple selector step matches an element. -/
def matchesSimple : SimpleSelector → ElemInfo → Bool
  | .tagName t, e => e.tag == t
  | .cls c, e => e.classes.contains c
  | .idSel v, e => e.idAttr == some v
  | .tagCls t c, e => e.tag == t && e.classes.contains c

/-- Whether a chain of steps matches, in order, a subsequence of the given
ancestor list (outermost ancestor first): the descendant combinator. -/
def ancestorsMatch : List SimpleSelector → List ElemInfo → Bool
  | [], _ => true
  | _ :: _, [] => false
  | s :: ss, a :: rest =>
    (matchesSimple s a && ancestorsMatch ss rest) || ancestorsMatch (s :: ss) rest

/-- Whether an element with the given ancestors matches a selector. -/
def selectorMatches (sel : Selector) (ancestors : List ElemInfo) (e : ElemInfo) : Bool :=
  matchesSimple sel.target e && ancestorsMatch sel.anc ancestors

mutual

/-- Text content of a node: the concatenation of all text beneath it. -/
def nodeText : Node → String
  | .text s => s
  | .elem _ _ _ ch => nodesText ch

/-- Text content of a forest, in document order. -/
def nodesText : List Node → String
  | [] => ""
  | n :: ns => nodeText n ++ nodesText ns

end

mutual

/-- Preorder (document-order) flattening of a node into the list of its
element nodes, each paired with its ancestor element list (outermost
first). -/
def preorderNode (anc : List ElemInfo) : Node → List (Node × List ElemInfo)
  | .text _ => []
  | .elem t i cs ch =>
    (Node.elem t i cs ch, anc) :: preorderNodes (anc ++ [⟨t, i, cs⟩]) ch

/-- Preorder (document-order) flattening of a forest. -/
def preorderNodes (anc : List ElemInfo) : List (Node) → List (Node × List ElemInfo)
  | [] => []
  | n :: ns => preorderNode anc n ++ preorderNodes anc ns

end

/-- Whether a node is an element matching the selector given its
ancestors; text nodes never match. -/
def nodeMatches (sel : Selector) (anc : List ElemInfo) : Node → Bool
  | .text _ => false
  | .elem t i cs _ => selectorMatches sel anc ⟨t, i, cs⟩

mutual

/-- Recursive traversal collecting the elements that match a selector, in
document order. -/
def collectNode (sel : Selector) (anc : List ElemInfo) : Node → List Node
  | .text _ => []
  | .elem t i cs ch =>
    (if selectorMatches sel anc ⟨t, i, cs⟩ then [Node.elem t i cs ch] else []) ++
      collectNodes sel (anc ++ [⟨t, i, cs⟩]) ch

/-- Recursive traversal collecting matching elements of a forest, in
document order. -/
def collectNodes (sel : Selector) (anc : List ElemInfo) : List (Node) → List Node
  | [] => []
  | n :: ns => collectNode sel anc n ++ collectNodes sel anc ns

end

/-- The elements of a document that match a selector, in document order. -/
def collect (sel : Selector) (doc : List Node) : List Node :=
  collectNodes sel [] doc

/-- Modelled from the spec: the fallback of `extract` (spec 4.3) — the
whole document's text content as a single-element sequence, or the empty
sequence if the document has no text. -/
def wholeDocText (doc : List Node) : List String :=
  if nodesText doc = "" then [] else [nodesText doc]

/-- Modelled from the spec: `Extractor.extract(html, selector)` (spec 4.3)
of the missing backend.  If the selector is present, return the trimmed
text content of each matching element in document order (duplicates are
not deduplicated); if it is absent or matches nothing, return the whole
document's text content as a single-element sequence (or the empty
sequence if the document has no text). -/
def extract (doc : List Node) (sel : Option Selector) : List String :=
  match sel with
  | none => wholeDocText doc
  | some s =>
    match collect s doc with
    | [] => wholeDocText doc
    | m :: ms => (m :: ms).map (fun n => jsTrim (nodeText n))

/-! ## TemplateExpander

Modelled from the spec: the TemplateExpander component (spec 4.1) lives in
the missing backend behind `/api/generate-urls` and
`/api/preview-template`.
-/

/-- Modelled from the spec: a placeholder specification (spec 3) — either
a numeric range `(start, end inclusive, step)` or an explicit ordered list
of string values. -/
inductive PlaceholderSpec where
  | numRange (start stop step : Int)
  | strList (values : List String)

/-- The values of an inclusive-end numeric range, `start, start+step,
start+2*step, ...` while `≤ stop`; the fuel argument bounds the loop and
is instantiated so that it never runs out when `step ≥ 1`. -/
def rangeAux (step stop : Int) : Nat → Int → List Int
  | 0, _ => []
  | fuel + 1, start =>
    if 1 ≤ step ∧ start ≤ stop then start :: rangeAux step stop fuel (start + step)
    else []

/-- Modelled from the spec: the values of a `range` placeholder spec
(spec 4.1) — `start, start+step, start+2*step, ...` while `≤ end`
(inclusive boundary at or before `end`); a range with `step ≤ 0` or
`start > end` yields the empty sequence. -/
def rangeValues (start stop step : Int) : List Int :=
  rangeAux step stop (stop + 1 - start).toNat start

/-- Modelled from the spec: the concrete string values a placeholder spec
expands to (spec 4.1) — range values rendered as decimal strings; list
values in their given order, trimmed of surrounding whitespace with empty
entries dropped. -/
def specValues : PlaceholderSpec → List String
  | .numRange a b s => (rangeValues a b s).map (fun n => toString n)
  | .strList vs => (vs.map jsTrim).filter (fun v => v != "")

/-- Modelled from the spec: expansion of an ordered placeholder mapping
over an accumulated URL list — the Cartesian product with the
first-declared placeholder varying slowest (spec 4.1). -/
def expand : List (String × PlaceholderSpec) → List String → List String
  | [], urls => urls
  | (name, spec) :: rest, urls =>
    expand rest (urls.flatMap (fun u => (specValues spec).map (fun v => substitute u name v)))

/-- Modelled from the spec: `generate(template, placeholders)` (spec 4.1)
of the missing backend — materializes every combination. -/
def generate (template : String) (pls : List (String × PlaceholderSpec)) : List String :=
  expand pls [template]

/-- Modelled from the spec: the exact total count reported by `preview`
(spec 4.1), computed as the Cartesian product size without materializing
the URLs. -/
def totalEstimated (pls : List (String × PlaceholderSpec)) : Nat :=
  (pls.map (fun p => (specValues p.2).length)).prod

/-- Result of a template preview: sample URLs (at most 5), the exact total
count, and a human-readable message. -/
structure PreviewResult where
  sample : List String
  total : Nat
  message : String

/-- Modelled from the spec: `preview(template, placeholders)` (spec 4.1)
of the missing backend — at most 5 sample URLs plus the exact total
count. -/
def preview (template : String) (pls : List (String × PlaceholderSpec)) : PreviewResult :=
  { sample := (generate template pls).take 5
    total := totalEstimated pls
    message := "全" ++ toString (totalEstimated pls) ++ "件のURLが生成されます" }

/-! ## RobotsChecker

Modelled from the spec: the RobotsChecker component (spec 4.2) lives in
the missing backend behind `/api/check-robots`.
-/

/-- A URL split into its origin (scheme + host + port, the unit at which
robots.txt policy is scoped) and its path. -/
structure Url where
  origin : String
  path : String
deriving DecidableEq

/-- The user-agent-wildcard policy parsed from a robots.txt file: the
`Disallow` path prefixes for `User-agent: *`. -/
structure RobotsPolicy where
  disallowed : List String
deriving DecidableEq

/-- Modelled from the spec: per-URL and aggregate result of a robots
check (spec 3, RobotsCheckResult). -/
structure RobotsCheckResult where
  results : List (Url × Bool)
  all_allowed : Bool
deriving DecidableEq

/-- Whether a wildcard policy allows a path: no disallowed prefix matches
it. -/
def pathAllowed (policy : RobotsPolicy) (path : String) : Bool :=
  policy.disallowed.all (fun p => !(p.data.isPrefixOf path.data))

/-- Modelled from the spec: the per-URL verdict of the robots check
(spec 4.2).  `fetchRobots` maps an origin to the policy parsed from its
robots.txt, or `none` when the fetch fails or the file is missing; in the
`none` case the URL is treated as allowed (absence of a policy implies no
restriction). -/
def urlAllowed (fetchRobots : String → Option RobotsPolicy) (u : Url) : Bool :=
  match fetchRobots u.origin with
  | none => true
  | some policy => pathAllowed policy u.path

/-- Modelled from the spec: `check(urls)` (spec 4.2) of the missing
backend — one verdict per URL plus the aggregate all-allowed flag;
computed fresh on each call, and total (a robots.txt fetch error is
recovered locally, never escalated). -/
def check (fetchRobots : String → Option RobotsPolicy) (urls : List Url) : RobotsCheckResult :=
  { results := urls.map (fun u => (u, urlAllowed fetchRobots u))
    all_allowed := (urls.map (fun u => (u, urlAllowed fetchRobots u))).all (fun r => r.2) }

/-! ## ScrapeOrchestrator

Modelled from the spec: the core component (spec 4.4) lives in the missing
backend behind `/api/scrape-stream`.  The outcome of each bounded-timeout
HTTP fetch is an input to the model (`FetchOutcome`); the cooperative
cancellation signal is a predicate telling, for each suspension point
before a fetch, whether the caller's cancellation has been observed.
-/

/-- Per-URL scrape outcome record (spec 3, ScrapeResult): URL, success
flag, HTTP status code (absent on network failure), extracted data, raw
content excerpt, and an error message present iff the fetch failed. -/
structure ScrapeResult where
  url : String
  success : Bool
  status_code : Option Nat
  extracted_data : List String
  content : String
  error : Option String
deriving DecidableEq

/-- The outcome of one HTTP fetch: a 2xx response with status and parsed
body, or a network/HTTP-level failure with an optional status code (absent
on network failure) and a reason. -/
inductive FetchOutcome where
  | ok (status : Nat) (body : List Node)
  | fail (status : Option Nat) (reason : String)

/-- Modelled from the spec: the event stream items (spec 3,
ProgressEvent), a discriminated union of progress, per-URL result, the
normal terminal summary, and the distinguished terminal cancellation
status (spec 4.4 step 4). -/
inductive ProgressEvent where
  | progress (current total : Nat) (url : String)
  | result (r : ScrapeResult)
  | complete (success_count error_count : Nat)
  | cancelled (success_count error_count : Nat)
deriving DecidableEq

/-- Whether a fetch outcome is a success. -/
def outcomeOk : FetchOutcome → Bool
  | .ok _ _ => true
  | .fail _ _ => false

/-- Modelled from the spec: the ScrapeResult built for one URL (spec 4.4
step 2) — on success the Extractor is applied to the body and the raw
content excerpt is the first 1000 characters; on failure the error reason
is recorded. -/
def resultFor (sel : Option Selector) (url : String) : FetchOutcome → ScrapeResult
  | .ok status body =>
    { url := url
      success := true
      status_code := some status
      extracted_data := extract body sel
      content := ⟨(nodesText body).data.take 1000⟩
      error := none }
  | .fail status reason =>
    { url := url
      success := false
      status_code := status
      extracted_data := []
      content := ""
      error := some reason }

/-- Modelled from the spec: the per-URL iteration of the orchestrator
(spec 4.4): at the suspension point before the fetch of index `i` the
cancellation signal is observed — if set, iteration stops and the
distinguished terminal cancellation status reporting the work completed so
far is emitted; otherwise `Progress(i, total, url)` is emitted, the fetch
outcome is turned into a ScrapeResult and emitted, the counters are
updated, and the loop continues; after the last URL the terminal
`Complete(success_count, error_count)` is emitted. -/
def scrapeLoop (sel : Option Selector) (total : Nat) (cancel : Nat → Bool) :
    List (String × FetchOutcome) → Nat → Nat → Nat → List ProgressEvent
  | [], _, s, e => [.complete s e]
  | (url, out) :: rest, i, s, e =>
    if cancel i then [.cancelled s e]
    else
      match out with
      | .ok status body =>
        .progress i total url :: .result (resultFor sel url (.ok status body)) ::
          scrapeLoop sel total cancel rest (i + 1) (s + 1) e
      | .fail status reason =>
        .progress i total url :: .result (resultFor sel url (.fail status reason)) ::
          scrapeLoop sel total cancel rest (i + 1) s (e + 1)

/-- Modelled from the spec: one orchestrator invocation (spec 4.4) over
the URL sequence paired with each URL's fetch outcome, producing the full
ordered event stream. -/
def scrape (sel : Option Selector) (cancel : Nat → Bool)
    (inputs : List (String × FetchOutcome)) : List ProgressEvent :=
  scrapeLoop sel inputs.length cancel inputs 0 0 0

/-- The progress/result event pairs the loop emits for a run of inputs
starting at index `i`, used to describe the stream's shape. -/
def pairsFrom (sel : Option Selector) (total : Nat) : Nat → List (String × FetchOutcome) → List ProgressEvent
  | _, [] => []
  | i, (url, out) :: rest =>
    .progress i total url :: .result (resultFor sel url out) :: pairsFrom sel total (i + 1) rest

/-- Number of successful fetch outcomes among the inputs. -/
def okCount (inputs : List (String × FetchOutcome)) : Nat :=
  inputs.countP (fun p => outcomeOk p.2)

/-- Number of failed fetch outcomes among the inputs. -/
def failCount (inputs : List (String × FetchOutcome)) : Nat :=
  inputs.countP (fun p => !outcomeOk p.2)

/-- Whether an event is a Progress event. -/
def isProgress : ProgressEvent → Bool
  | .progress _ _ _ => true
  | _ => false

/-- Whether an event is a Result event. -/
def isResult : ProgressEvent → Bool
  | .result _ => true
  | _ => false

/-- Whether an event is the normal terminal Complete event. -/
def isComplete : ProgressEvent → Bool
  | .complete _ _ => true
  | _ => false

/-! ## Frontend result pipeline

Embedded from the source: `ScrapingPanel.jsx` (`handleStartScraping`,
lines 72-141) and the statistics of `ResultsViewer`.  The panel state is
the pair of React state variables `logs` and `results` plus the
`isRunning` flag; log timestamps are not modelled.
-/

/-- The `type` tag of a log line in `ScrapingPanel` (`addLog`). -/
inductive LogType where
  | info
  | success
  | error
deriving DecidableEq

/-- One log line of `ScrapingPanel` (timestamp omitted). -/
structure LogEntry where
  message : String
  kind : LogType
deriving DecidableEq

/-- The `ScrapingPanel` React state touched by `handleStartScraping`. -/
structure PanelState where
  logs : List LogEntry
  results : List ScrapeResult
  isRunning : Bool
deriving DecidableEq

/-- Embedding of `addLog` (ScrapingPanel.jsx lines 31-34): append a log
entry. -/
def addLog (st : PanelState) (message : String) (kind : LogType) : PanelState :=
  { st with logs := st.logs ++ [⟨message, kind⟩] }

/-- A parsed `data:` object of the `/api/scrape-stream` server-sent-event
stream, as consumed by `handleStartScraping`. -/
inductive StreamEvent where
  | progress (current total : Nat) (url : String)
  | result (r : ScrapeResult)
  | complete (success_count error_count : Nat)
deriving DecidableEq

/-- The completion log message of `handleStartScraping` (line 121). -/
def completeMessage (s e : Nat) : String :=
  "完了: 成功 " ++ toString s ++ "件 / 失敗 " ++ toString e ++ "件"

/-- Embedding of the event dispatch of `handleStartScraping`
(ScrapingPanel.jsx lines 110-122): a progress event is logged; a result
event is logged and, only when `success` is true, appended to `results`;
a complete event is logged. -/
def processEvent (st : PanelState) : StreamEvent → PanelState
  | .progress c t u =>
    addLog st ("[" ++ toString c ++ "/" ++ toString t ++ "] " ++ u) .info
  | .result r =>
    if r.success then
      { addLog st ("✓ 成功: " ++ r.url) .success with
        results := (addLog st ("✓ 成功: " ++ r.url) .success).results ++ [r] }
    else
      addLog st ("✗ 失敗: " ++ r.url ++ " - " ++ r.error.getD "") .error
  | .complete s e =>
    addLog st (completeMessage s e) .info

/-- Embedding of `handleStartScraping` (ScrapingPanel.jsx lines 72-141):
an empty URL list is rejected with an error log before any request is
made; otherwise the run starts (results reset, start log), the stream
events are processed in order, and the running flag is cleared at the
end. -/
def handleStartScraping (urls : List String) (events : List StreamEvent)
    (st : PanelState) : PanelState :=
  if urls.length = 0 then
    addLog st "URLリストが空です" .error
  else
    let st1 := { st with isRunning := true, results := [] }
    let st2 := addLog st1 ("スクレイピング開始: " ++ toString urls.length ++ "件のURL") .info
    let st3 := events.foldl processEvent st2
    { st3 with isRunning := false }

/-- Embedding of the `buildPlaceholders` list branch (UrlGenerator.jsx
line 32): `listValues.split(',').map(v => v.trim()).filter(v => v)`. -/
def buildListValues (s : String) : List String :=
  ((jsSplitComma s).map jsTrim).filter (fun v => v != "")

/-- Embedding of the ResultsViewer failure statistic
(`results.filter(r => !r.success).length`). -/
def viewerFailureCount (results : List ScrapeResult) : Nat :=
  (results.filter (fun r => !r.success)).length

/-- A successful ScrapeResult used as a concrete witness input. -/
def sampleSuccess : ScrapeResult :=
  ⟨"https://a.example/1", true, some 200, ["t"], "c", none⟩

/-- A failed ScrapeResult (HTTP 404) used as a concrete witness input. -/
def sampleFailure : ScrapeResult :=
  ⟨"https://a.example/2", false, some 404, [], "", some "HTTP 404"⟩

/-- A concrete URL used as a witness input for the robots check. -/
def sampleUrl : Url := ⟨"https://a.example", "/page/1"⟩

/-! ## Theorems -/

theorem processEvent_success_inv (st : PanelState) (ev : StreamEvent)
    (h : ∀ r ∈ st.results, r.success = true) :
    ∀ r ∈ (processEvent st ev).results, r.success = true := by
  cases ev with
  | progress c t u => simpa [processEvent, addLog] using h
  | result r =>
    by_cases hs : r.success = true
    · intro x hx
      simp only [processEvent, hs, if_true, addLog] at hx
      rcases List.mem_append.mp hx with hx | hx
      · exact h x hx
      · rcases List.mem_singleton.mp hx with rfl; exact hs
    · intro x hx
      simp only [processEvent, hs, if_false, addLog] at hx
      exact h x hx
  | complete s e => simpa [processEvent, addLog] using h

theorem foldl_processEvent_success_inv (events : List StreamEvent) :
    ∀ st : PanelState, (∀ r ∈ st.results, r.success = true) →
    ∀ r ∈ (events.foldl processEvent st).results, r.success = true := by
  induction events with
  | nil => intro st h; simpa using h
  | cons e rest ih =>
    intro st h
    exact ih _ (processEvent_success_inv st e h)

theorem viewerFailureCount_eq_zero (results : List ScrapeResult)
    (h : ∀ r ∈ results, r.success = true) : viewerFailureCount results = 0 := by
  rw [viewerFailureCount, List.length_eq_zero]
  rw [List.filter_eq_nil_iff]
  intro r hr
  simp [h r hr]

/-- C10: in the frontend result pipeline, a Result event with
`success=false` is only logged and never appended to the accumulated
results, so every element of the results array handed to ResultsViewer has
`success=true` and the ResultsViewer failure count is 0. -/
theorem results_pipeline_success_only (urls : List String) (events : List StreamEvent)
    (st : PanelState) (h : ∀ r ∈ st.results, r.success = true) :
    (∀ r ∈ (handleStartScraping urls events st).results, r.success = true) ∧
    viewerFailureCount (handleStartScraping urls events st).results = 0 := by
  have key : ∀ r ∈ (handleStartScraping urls events st).results, r.success = true := by
    rw [handleStartScraping]
    split
    · simpa [addLog] using h
    · exact foldl_processEvent_success_inv events _ (by simp [addLog])
  exact ⟨key, viewerFailureCount_eq_zero _ key⟩

/-- Witness for C10: a run over one successful and one failed Result event
leaves a results list whose ResultsViewer failure count is 0. -/
theorem results_pipeline_witness :
    viewerFailureCount
      (handleStartScraping ["https://a.example/1", "https://a.example/2"]
        [.result sampleSuccess, .result sampleFailure] ⟨[], [], false⟩).results = 0 :=
  (results_pipeline_success_only ["https://a.example/1", "https://a.example/2"]
    [.result sampleSuccess, .result sampleFailure] ⟨[], [], false⟩ (by simp)).2

/-- Counterexample for C9: starting a scrape with an empty URL sequence in
`handleStartScraping` produces exactly one log entry, an error line, which
is not the 0/0 completion report — no completion is reported at all. -/
theorem empty_scrape_counterexample :
    (handleStartScraping [] [] ⟨[], [], false⟩).logs =
      [⟨"URLリストが空です", LogType.error⟩] ∧
    (⟨"URLリストが空です", LogType.error⟩ : LogEntry) ≠ ⟨completeMessage 0 0, LogType.info⟩ := by
  refine ⟨rfl, ?_⟩
  intro h
  injection h with h1 h2
  exact LogType.noConfusion h2

/-- C9 as amended: starting a scrape with an empty URL sequence performs
no fetches — the handler rejects it synchronously with a single error log,
ignores any stream events, leaves the results untouched, and reports no
completion. -/
theorem empty_scrape_rejected (events : List StreamEvent) (st : PanelState) :
    handleStartScraping [] events st = addLog st "URLリストが空です" LogType.error ∧
    (handleStartScraping [] events st).results = st.results ∧
    (handleStartScraping [] events st).isRunning = st.isRunning :=
  ⟨rfl, rfl, rfl⟩

/-- C8: the frontend list-spec builder uses exactly the listed values in
their given order: the output is a sublist of the trimmed split (order),
every kept value is nonempty and is the trim of a split entry
(soundness), every split entry that is nonempty after trimming is kept
(completeness), and the output equals the trimmed split with the
empty-after-trim entries dropped (the exact characterization). -/
theorem buildListValues_trimmed_ordered (s : String) :
    List.Sublist (buildListValues s) ((jsSplitComma s).map jsTrim) ∧
    (∀ v ∈ buildListValues s, v ≠ "" ∧ ∃ w ∈ jsSplitComma s, v = jsTrim w) ∧
    (∀ w ∈ jsSplitComma s, jsTrim w ≠ "" → jsTrim w ∈ buildListValues s) ∧
    buildListValues s =
      ((jsSplitComma s).map jsTrim).filter (fun v => decide (v ≠ "")) := by
  have hchar : buildListValues s =
      ((jsSplitComma s).map jsTrim).filter (fun v => decide (v ≠ "")) := by
    rw [buildListValues]
    refine List.filter_congr ?_
    intro v _
    by_cases hv : v = "" <;> simp [hv]
  refine ⟨List.filter_sublist _, ?_, ?_, hchar⟩
  · intro v hv
    rw [buildListValues, List.mem_filter] at hv
    obtain ⟨hmem, hne⟩ := hv
    obtain ⟨w, hw, rfl⟩ := List.mem_map.mp hmem
    exact ⟨by simpa using hne, w, hw, rfl⟩
  · intro w hw hne
    rw [hchar]
    exact List.mem_filter.mpr ⟨List.mem_map_of_mem _ hw, by simp [hne]⟩

/-- Witness for C8: on the concrete input `" a, ,b "` the trim of the
split entry `" a"` is kept by `buildListValues` (completeness at a
concrete entry), the output is exactly the nonempty-filtered trimmed
split, and it evaluates to `["a", "b"]`. -/
theorem buildListValues_witness :
    jsTrim " a" ∈ buildListValues " a, ,b " ∧
    buildListValues " a, ,b " =
      ((jsSplitComma " a, ,b ").map jsTrim).filter (fun v => decide (v ≠ "")) ∧
    buildListValues " a, ,b " = ["a", "b"] := by
  obtain ⟨h1, h2, h3, h4⟩ := buildListValues_trimmed_ordered " a, ,b "
  exact ⟨h3 " a" (by decide) (by decide), h4, by decide⟩

/-- C6: a URL whose origin's robots.txt fetch fails or is missing is
reported `allowed=true` by the robots check, and the check itself is total
— it returns one verdict per input URL and never escalates the fetch
error. -/
theorem robots_fetch_failure_allowed (fetchRobots : String → Option RobotsPolicy)
    (urls : List Url) (i : Nat) (h : i < urls.length)
    (hf : fetchRobots urls[i].origin = none) :
    (check fetchRobots urls).results[i]? = some (urls[i], true) ∧
    (check fetchRobots urls).results.length = urls.length := by
  constructor
  · simp [check, List.getElem?_map, List.getElem?_eq_getElem h, urlAllowed, hf]
  · simp [check]

/-- Witness for C6: with a robots.txt fetch that fails for every origin,
the single sample URL is reported allowed. -/
theorem robots_missing_witness :
    (check (fun _ => none) [sampleUrl]).results[0]? = some (sampleUrl, true) ∧
    (check (fun _ => none) [sampleUrl]).results.length = 1 :=
  robots_fetch_failure_allowed (fun _ => none) [sampleUrl] 0 (by decide) rfl

mutual

theorem collectNode_eq_filter (sel : Selector) (anc : List ElemInfo) (n : Node) :
    collectNode sel anc n =
      ((preorderNode anc n).filter (fun p => nodeMatches sel p.2 p.1)).map Prod.fst := by
  cases n with
  | text s => simp [collectNode, preorderNode]
  | elem t i cs ch =>
    rw [collectNode, preorderNode, List.filter_cons]
    rw [collectNodes_eq_filter sel (anc ++ [ElemInfo.mk t i cs]) ch]
    by_cases hm : selectorMatches sel anc ⟨t, i, cs⟩ = true
    · simp [nodeMatches, hm]
    · simp [nodeMatches, hm]

theorem collectNodes_eq_filter (sel : Selector) (anc : List ElemInfo) (ns : List Node) :
    collectNodes sel anc ns =
      ((preorderNodes anc ns).filter (fun p => nodeMatches sel p.2 p.1)).map Prod.fst := by
  cases ns with
  | nil => simp [collectNodes, preorderNodes]
  | cons n rest =>
    rw [collectNodes, preorderNodes, List.filter_append, List.map_append]
    rw [collectNode_eq_filter sel anc n, collectNodes_eq_filter sel anc rest]

end

/-- C7: with a present selector that matches at least one element,
`extract` returns the trimmed text content of each matching element, in
document order (the matches are the preorder traversal filtered by the
selector) and without deduplication (one output string per match); with an
absent selector, or one matching no element, it returns the whole
document's text content as a single-element sequence, or the empty
sequence if the document has no text. -/
theorem extract_spec (doc : List Node) (sel : Selector) :
    (collect sel doc ≠ [] →
      extract doc (some sel) = (collect sel doc).map (fun n => jsTrim (nodeText n)) ∧
      (extract doc (some sel)).length = (collect sel doc).length) ∧
    (collect sel doc = [] → extract doc (some sel) = wholeDocText doc) ∧
    extract doc none = wholeDocText doc ∧
    collect sel doc =
      ((preorderNodes [] doc).filter (fun p => nodeMatches sel p.2 p.1)).map Prod.fst ∧
    (nodesText doc = "" → wholeDocText doc = []) ∧
    (nodesText doc ≠ "" → wholeDocText doc = [nodesText doc]) := by
  refine ⟨?_, ?_, rfl, collectNodes_eq_filter sel [] doc, ?_, ?_⟩
  · intro hne
    cases hc : collect sel doc with
    | nil => exact absurd hc hne
    | cons m ms =>
      constructor
      · rw [extract, hc]
      · rw [extract, hc, List.length_map]
  · intro hc
    rw [extract, hc]
  · intro ht
    rw [wholeDocText, if_pos ht]
  · intro ht
    rw [wholeDocText, if_neg ht]

/-- Scenario C document: five elements, two of which carry class
`title`. -/
def scenarioCDoc : List Node :=
  [.elem "div" none ["container"]
    [.elem "h1" none ["title"] [.text "One"],
     .elem "p" none [] [.text "x"],
     .elem "h2" none ["title"] [.text " Two "],
     .elem "span" none [] [.text "y"]]]

/-- The `.title` selector used in Scenario C. -/
def titleSelector : Selector := ⟨[], .cls "title"⟩

/-- Witness for C7: on the Scenario C document the `.title` selector
matches 2 of the 5 elements and `extract` returns exactly their trimmed
texts, in document order. -/
theorem extract_scenarioC_witness :
    extract scenarioCDoc (some titleSelector) =
      (collect titleSelector scenarioCDoc).map (fun n => jsTrim (nodeText n)) ∧
    (extract scenarioCDoc (some titleSelector)).length = 2 ∧
    extract scenarioCDoc (some titleSelector) = ["One", "Two"] := by
  have hne : collect titleSelector scenarioCDoc ≠ [] := by
    intro hc
    exact List.noConfusion
      ((rfl : collect titleSelector scenarioCDoc =
        Node.elem "h1" none ["title"] [.text "One"] ::
          [Node.elem "h2" none ["title"] [.text " Two "]]) ▸ hc)
  have h := (extract_spec scenarioCDoc titleSelector).1 hne
  exact ⟨h.1, h.2.trans rfl, rfl⟩

theorem rangeAux_eq_nil (step stop : Int) (fuel : Nat) (start : Int)
    (h : ¬(1 ≤ step ∧ start ≤ stop)) : rangeAux step stop fuel start = [] := by
  cases fuel with
  | zero => rfl
  | succ f => rw [rangeAux, if_neg h]

theorem rangeAux_eq_map (step stop : Int) :
    ∀ fuel start, 1 ≤ step → start ≤ stop → (stop - start).toNat < fuel →
    rangeAux step stop fuel start =
      (List.range ((stop - start).toNat / step.toNat + 1)).map
        (fun (k : Nat) => start + step * (k : Int)) := by
  intro fuel
  induction fuel with
  | zero => intro start h1 h2 h3; omega
  | succ f ih =>
    intro start h1 h2 h3
    rw [rangeAux, if_pos ⟨h1, h2⟩]
    by_cases hnext : start + step ≤ stop
    · rw [ih (start + step) h1 hnext (by omega)]
      have hs : 0 < step.toNat := by omega
      have hdiv : (stop - start).toNat / step.toNat =
          (stop - (start + step)).toNat / step.toNat + 1 := by
        have heq : (stop - start).toNat = (stop - (start + step)).toNat + step.toNat := by omega
        rw [heq, Nat.add_div_right _ hs]
      rw [hdiv]
      conv_rhs => rw [List.range_succ_eq_map, List.map_cons, List.map_map]
      refine List.cons_eq_cons.mpr ⟨?_, ?_⟩
      · norm_num
      · refine List.map_congr_left ?_
        intro a _
        show start + step + step * (a : Int) = start + step * ((a + 1 : Nat) : Int)
        push_cast
        ring
    · rw [rangeAux_eq_nil step stop f (start + step) (fun hp => hnext hp.2)]
      rw [Nat.div_eq_of_lt (by omega)]
      norm_num [List.range_succ]

/-- C3: for a range placeholder spec the generated values are `start,
start+step, start+2*step, ...` while `≤ end`, the sequence length is
`ceil((end - start + 1) / step)` (written with natural ceiling division)
whenever `start ≤ end` and `step ≥ 1`, and the sequence is empty (not a
failure) whenever `step ≤ 0` or `start > end`. -/
theorem rangeValues_spec (start stop step : Int) :
    (1 ≤ step → start ≤ stop →
      rangeValues start stop step =
        (List.range ((stop - start).toNat / step.toNat + 1)).map
          (fun (k : Nat) => start + step * (k : Int)) ∧
      (rangeValues start stop step).length =
        ((stop - start + 1).toNat + (step.toNat - 1)) / step.toNat ∧
      ∀ x ∈ rangeValues start stop step, x ≤ stop) ∧
    (step ≤ 0 ∨ stop < start → rangeValues start stop step = []) := by
  constructor
  · intro h1 h2
    have hmap : rangeValues start stop step =
        (List.range ((stop - start).toNat / step.toNat + 1)).map
          (fun (k : Nat) => start + step * (k : Int)) := by
      rw [rangeValues]
      exact rangeAux_eq_map step stop _ start h1 h2 (by omega)
    refine ⟨hmap, ?_, ?_⟩
    · rw [hmap, List.length_map, List.length_range]
      have hs : 0 < step.toNat := by omega
      have h3 : (stop - start + 1).toNat + (step.toNat - 1) =
          (stop - start).toNat + step.toNat := by omega
      rw [h3, Nat.add_div_right _ hs]
    · intro x hx
      rw [hmap] at hx
      obtain ⟨k, hk, rfl⟩ := List.mem_map.mp hx
      rw [List.mem_range] at hk
      have hk' : k ≤ (stop - start).toNat / step.toNat := by omega
      have hmul : step.toNat * k ≤ (stop - start).toNat := by
        have ha : step.toNat * k ≤ step.toNat * ((stop - start).toNat / step.toNat) :=
          Nat.mul_le_mul_left _ hk'
        have hb : (stop - start).toNat / step.toNat * step.toNat ≤ (stop - start).toNat :=
          Nat.div_mul_le_self _ _
        rw [Nat.mul_comm] at hb
        exact le_trans ha hb
      have hcast : (step.toNat : Int) * (k : Int) ≤ ((stop - start).toNat : Int) := by
        exact_mod_cast hmul
      have hstep : (step.toNat : Int) = step := by omega
      have hn : ((stop - start).toNat : Int) = stop - start := by omega
      rw [hstep, hn] at hcast
      linarith
  · intro h
    rw [rangeValues]
    exact rangeAux_eq_nil step stop _ start (by omega)

/-- Witness for C3: the range (start=1, end=4, step=2) has the predicted
length 2, and a range with step ≤ 0 expands to the empty sequence. -/
theorem rangeValues_spec_witness :
    (rangeValues 1 4 2).length = 2 ∧ rangeValues 1 10 (-1) = [] := by
  constructor
  · have h := ((rangeValues_spec 1 4 2).1 (by decide) (by decide)).2.1
    rw [h]
    decide
  · exact (rangeValues_spec 1 10 (-1)).2 (Or.inl (by decide))

theorem flatMap_const_length (l : List String) (f : String → List String) (k : Nat)
    (h : ∀ u, (f u).length = k) : (l.flatMap f).length = l.length * k := by
  induction l with
  | nil => simp
  | cons a t ih =>
    rw [List.flatMap_cons, List.length_append, ih, h a, List.length_cons]
    ring

theorem expand_length (pls : List (String × PlaceholderSpec)) :
    ∀ urls : List String, (expand pls urls).length = urls.length * totalEstimated pls := by
  induction pls with
  | nil =>
    intro urls
    simp [expand, totalEstimated]
  | cons p rest ih =>
    intro urls
    obtain ⟨name, spec⟩ := p
    rw [expand, ih,
      flatMap_const_length urls _ (specValues spec).length (fun u => List.length_map _ _)]
    have ht : totalEstimated ((name, spec) :: rest) =
        (specValues spec).length * totalEstimated rest := by
      rw [totalEstimated, List.map_cons, List.prod_cons]
      rfl
    rw [ht]
    ring

/-- C4: the total count reported by `preview` — computed as the Cartesian
product size, without materializing the URLs — equals the length of the
sequence materialized by `generate` on the same input, and the preview
sample contains at most 5 URLs. -/
theorem preview_total_eq_generate_length (template : String)
    (pls : List (String × PlaceholderSpec)) :
    (preview template pls).total = (generate template pls).length ∧
    (preview template pls).sample.length ≤ 5 := by
  constructor
  · show totalEstimated pls = (expand pls [template]).length
    rw [expand_length pls [template]]
    simp
  · show ((generate template pls).take 5).length ≤ 5
    rw [List.length_take]
    exact Nat.min_le_left _ _

theorem okCount_add_failCount (l : List (String × FetchOutcome)) :
    okCount l + failCount l = l.length := by
  induction l with
  | nil => rfl
  | cons p rest ih =>
    rw [okCount, failCount, List.countP_cons, List.countP_cons, List.length_cons]
    rw [okCount, failCount] at ih
    cases h : outcomeOk p.2 <;> simp [h] <;> omega

theorem scrapeLoop_false_eq (sel : Option Selector) (total : Nat) :
    ∀ (l : List (String × FetchOutcome)) (i s e : Nat),
    scrapeLoop sel total (fun _ => false) l i s e =
      pairsFrom sel total i l ++
        [.complete (s + okCount l) (e + failCount l)] := by
  intro l
  induction l with
  | nil =>
    intro i s e
    simp [scrapeLoop, pairsFrom, okCount, failCount]
  | cons p rest ih =>
    intro i s e
    obtain ⟨url, out⟩ := p
    cases out with
    | ok status body =>
      simp [scrapeLoop, pairsFrom, ih (i + 1) (s + 1) e, okCount, failCount,
        List.countP_cons, outcomeOk, Nat.add_assoc, Nat.add_comm, Nat.add_left_comm]
    | fail status reason =>
      simp [scrapeLoop, pairsFrom, ih (i + 1) s (e + 1), okCount, failCount,
        List.countP_cons, outcomeOk, Nat.add_assoc, Nat.add_comm, Nat.add_left_comm]

theorem scrapeLoop_cancel_eq (sel : Option Selector) (total j : Nat) :
    ∀ (k : Nat) (l : List (String × FetchOutcome)) (i s e : Nat), i + k = j → k < l.length →
    scrapeLoop sel total (fun x => decide (j ≤ x)) l i s e =
      pairsFrom sel total i (l.take k) ++
        [.cancelled (s + okCount (l.take k)) (e + failCount (l.take k))] := by
  intro k
  induction k with
  | zero =>
    intro l i s e hij hk
    cases l with
    | nil => simp at hk
    | cons p rest =>
      obtain ⟨url, out⟩ := p
      have hc : j ≤ i := by omega
      simp [scrapeLoop, hc, pairsFrom, okCount, failCount]
  | succ k ih =>
    intro l i s e hij hk
    cases l with
    | nil => simp at hk
    | cons p rest =>
      obtain ⟨url, out⟩ := p
      have hc : ¬j ≤ i := by omega
      have h1 : k < rest.length := by simpa using hk
      cases out with
      | ok status body =>
        simp [scrapeLoop, hc, List.take_succ_cons, pairsFrom,
          ih rest (i + 1) (s + 1) e (by omega) h1, okCount, failCount,
          List.countP_cons, outcomeOk, Nat.add_assoc, Nat.add_comm, Nat.add_left_comm]
      | fail status reason =>
        simp [scrapeLoop, hc, List.take_succ_cons, pairsFrom,
          ih rest (i + 1) s (e + 1) (by omega) h1, okCount, failCount,
          List.countP_cons, outcomeOk, Nat.add_assoc, Nat.add_comm, Nat.add_left_comm]

theorem pairsFrom_length (sel : Option Selector) (total : Nat) :
    ∀ (l : List (String × FetchOutcome)) (i : Nat),
    (pairsFrom sel total i l).length = 2 * l.length := by
  intro l
  induction l with
  | nil => intro i; rfl
  | cons p rest ih =>
    intro i
    obtain ⟨url, out⟩ := p
    simp [pairsFrom, ih (i + 1)]
    omega

theorem pairsFrom_countP_progress (sel : Option Selector) (total : Nat) :
    ∀ (l : List (String × FetchOutcome)) (i : Nat),
    (pairsFrom sel total i l).countP isProgress = l.length := by
  intro l
  induction l with
  | nil => intro i; rfl
  | cons p rest ih =>
    intro i
    obtain ⟨url, out⟩ := p
    simp [pairsFrom, List.countP_cons, isProgress, isResult, ih (i + 1)]

theorem pairsFrom_countP_result (sel : Option Selector) (total : Nat) :
    ∀ (l : List (String × FetchOutcome)) (i : Nat),
    (pairsFrom sel total i l).countP isResult = l.length := by
  intro l
  induction l with
  | nil => intro i; rfl
  | cons p rest ih =>
    intro i
    obtain ⟨url, out⟩ := p
    simp [pairsFrom, List.countP_cons, isProgress, isResult, ih (i + 1)]

theorem pairsFrom_countP_complete (sel : Option Selector) (total : Nat) :
    ∀ (l : List (String × FetchOutcome)) (i : Nat),
    (pairsFrom sel total i l).countP isComplete = 0 := by
  intro l
  induction l with
  | nil => intro i; rfl
  | cons p rest ih =>
    intro i
    obtain ⟨url, out⟩ := p
    simp [pairsFrom, List.countP_cons, isComplete, ih (i + 1)]

theorem pairsFrom_getElem_progress (sel : Option Selector) (total : Nat) :
    ∀ (l : List (String × FetchOutcome)) (k i : Nat), (h : k < l.length) →
    (pairsFrom sel total i l)[2 * k]? = some (.progress (i + k) total l[k].1) := by
  intro l
  induction l with
  | nil => intro k i h; simp at h
  | cons p rest ih =>
    intro k i h
    obtain ⟨url, out⟩ := p
    cases k with
    | zero => simp [pairsFrom]
    | succ k =>
      have h2 : 2 * (k + 1) = 2 * k + 1 + 1 := by ring
      rw [h2]
      have h3 : k < rest.length := by simpa using h
      have := ih k (i + 1) h3
      simp only [pairsFrom, List.getElem?_cons_succ, List.getElem_cons_succ]
      rw [this]
      have h4 : i + 1 + k = i + (k + 1) := by omega
      rw [h4]

theorem pairsFrom_getElem_result (sel : Option Selector) (total : Nat) :
    ∀ (l : List (String × FetchOutcome)) (k i : Nat), (h : k < l.length) →
    (pairsFrom sel total i l)[2 * k + 1]? =
      some (.result (resultFor sel l[k].1 l[k].2)) := by
  intro l
  induction l with
  | nil => intro k i h; simp at h
  | cons p rest ih =>
    intro k i h
    obtain ⟨url, out⟩ := p
    cases k with
    | zero => simp [pairsFrom]
    | succ k =>
      have h2 : 2 * (k + 1) + 1 = (2 * k + 1) + 1 + 1 := by ring
      rw [h2]
      have h3 : k < rest.length := by simpa using h
      simp only [pairsFrom, List.getElem?_cons_succ, List.getElem_cons_succ]
      exact ih k (i + 1) h3

/-- C1: a run without cancellation over N URLs emits exactly one Result
event per URL — a fetch failure on URL k produces a failed ScrapeResult
without preventing the later URLs from being attempted (each index still
gets its own Result event) — and the terminal Complete event reports
`success_count + error_count = N`. -/
theorem scrape_one_result_per_url (sel : Option Selector)
    (inputs : List (String × FetchOutcome)) :
    (scrape sel (fun _ => false) inputs).countP isResult = inputs.length ∧
    (scrape sel (fun _ => false) inputs).getLast? =
      some (.complete (okCount inputs) (failCount inputs)) ∧
    okCount inputs + failCount inputs = inputs.length ∧
    ∀ i, (h : i < inputs.length) →
      (scrape sel (fun _ => false) inputs)[2 * i + 1]? =
        some (.result (resultFor sel inputs[i].1 inputs[i].2)) := by
  have he : scrape sel (fun _ => false) inputs =
      pairsFrom sel inputs.length 0 inputs ++
        [.complete (okCount inputs) (failCount inputs)] := by
    rw [scrape, scrapeLoop_false_eq]
    norm_num
  refine ⟨?_, ?_, okCount_add_failCount inputs, ?_⟩
  · rw [he, List.countP_append, pairsFrom_countP_result]
    simp [List.countP_cons, isResult]
  · rw [he, List.getLast?_concat]
  · intro i h
    rw [he, List.getElem?_append_left
      (by rw [pairsFrom_length sel inputs.length inputs 0]; omega)]
    exact pairsFrom_getElem_result sel inputs.length inputs i 0 h

/-- Scenario B inputs: three URLs, the second fails with HTTP 404. -/
def scenarioB : List (String × FetchOutcome) :=
  [("https://a.example/1", .ok 200 []),
   ("https://a.example/2", .fail (some 404) "HTTP 404"),
   ("https://a.example/3", .ok 200 [])]

/-- Witness for C1 (Scenario B): on three URLs with the second failing,
exactly 3 Result events are emitted, the second Result is the failed
ScrapeResult for HTTP 404, and the Complete event reports
`success_count=2, error_count=1`. -/
theorem scrape_scenarioB_witness :
    (scrape none (fun _ => false) scenarioB).countP isResult = 3 ∧
    (scrape none (fun _ => false) scenarioB).getLast? =
      some (.complete 2 1) ∧
    (scrape none (fun _ => false) scenarioB)[3]? =
      some (.result ⟨"https://a.example/2", false, some 404, [], "", some "HTTP 404"⟩) := by
  obtain ⟨h1, h2, h3, h4⟩ := scrape_one_result_per_url none scenarioB
  refine ⟨h1.trans (by decide), h2.trans (by decide), ?_⟩
  exact (h4 1 (by decide)).trans (by decide)

/-- C5: without cancellation the event stream is strictly ordered — for
each URL index i the `Progress(i, N, url)` event sits at stream position
2i, immediately followed at position 2i+1 by that URL's Result event, and
the stream consists of exactly these pairs plus a single terminal Complete
event at the last position, with no events after it. -/
theorem scrape_stream_strictly_ordered (sel : Option Selector)
    (inputs : List (String × FetchOutcome)) :
    (∀ i, (h : i < inputs.length) →
      (scrape sel (fun _ => false) inputs)[2 * i]? =
        some (.progress i inputs.length inputs[i].1) ∧
      (scrape sel (fun _ => false) inputs)[2 * i + 1]? =
        some (.result (resultFor sel inputs[i].1 inputs[i].2))) ∧
    (scrape sel (fun _ => false) inputs).countP isComplete = 1 ∧
    (scrape sel (fun _ => false) inputs).length = 2 * inputs.length + 1 ∧
    (scrape sel (fun _ => false) inputs)[2 * inputs.length]? =
      some (.complete (okCount inputs) (failCount inputs)) := by
  have he : scrape sel (fun _ => false) inputs =
      pairsFrom sel inputs.length 0 inputs ++
        [.complete (okCount inputs) (failCount inputs)] := by
    rw [scrape, scrapeLoop_false_eq]
    norm_num
  refine ⟨?_, ?_, ?_, ?_⟩
  · intro i h
    constructor
    · rw [he, List.getElem?_append_left
        (by rw [pairsFrom_length sel inputs.length inputs 0]; omega)]
      have := pairsFrom_getElem_progress sel inputs.length inputs i 0 h
      simpa using this
    · rw [he, List.getElem?_append_left
        (by rw [pairsFrom_length sel inputs.length inputs 0]; omega)]
      exact pairsFrom_getElem_result sel inputs.length inputs i 0 h
  · rw [he, List.countP_append, pairsFrom_countP_complete]
    simp [List.countP_cons, isComplete]
  · rw [he, List.length_append, pairsFrom_length sel inputs.length inputs 0]
    simp
  · rw [he, ← pairsFrom_length sel inputs.length inputs 0,
      List.getElem?_concat_length]

/-- Witness for C5: on the Scenario B inputs the first Progress event is
at position 0, the stream has exactly one Complete event, its length is
7 = 2*3+1, and the Complete event is the last entry. -/
theorem scrape_order_witness :
    (scrape none (fun _ => false) scenarioB)[0]? =
      some (.progress 0 3 "https://a.example/1") ∧
    (scrape none (fun _ => false) scenarioB).countP isComplete = 1 ∧
    (scrape none (fun _ => false) scenarioB).length = 7 ∧
    (scrape none (fun _ => false) scenarioB)[6]? = some (.complete 2 1) := by
  obtain ⟨h1, h2, h3, h4⟩ := scrape_stream_strictly_ordered none scenarioB
  exact ⟨(h1 0 (by decide)).1, h2, h3, h4.trans (by decide)⟩

/-- C2: for a run whose cancellation signal is observed at the suspension
point before the fetch of index j (j < N), no Progress or Result events
are emitted beyond the j already-processed URLs, the stream contains no
Complete event, and it ends with exactly one terminal cancellation status
reporting the work completed so far (`success_count + error_count = j`),
distinguished from a normal Complete event. -/
theorem scrape_cancellation_stops_stream (sel : Option Selector)
    (inputs : List (String × FetchOutcome)) (j : Nat) (h : j < inputs.length) :
    (scrape sel (fun x => decide (j ≤ x)) inputs).countP isProgress = j ∧
    (scrape sel (fun x => decide (j ≤ x)) inputs).countP isResult = j ∧
    (scrape sel (fun x => decide (j ≤ x)) inputs).countP isComplete = 0 ∧
    (scrape sel (fun x => decide (j ≤ x)) inputs).length = 2 * j + 1 ∧
    (scrape sel (fun x => decide (j ≤ x)) inputs).getLast? =
      some (.cancelled (okCount (inputs.take j)) (failCount (inputs.take j))) ∧
    okCount (inputs.take j) + failCount (inputs.take j) = j := by
  have htl : (inputs.take j).length = j := by
    rw [List.length_take]
    omega
  have he : scrape sel (fun x => decide (j ≤ x)) inputs =
      pairsFrom sel inputs.length 0 (inputs.take j) ++
        [.cancelled (okCount (inputs.take j)) (failCount (inputs.take j))] := by
    rw [scrape, scrapeLoop_cancel_eq sel inputs.length j j inputs 0 0 0 (by omega) h]
    norm_num
  refine ⟨?_, ?_, ?_, ?_, ?_, ?_⟩
  · rw [he, List.countP_append, pairsFrom_countP_progress, htl]
    simp [List.countP_cons, isProgress]
  · rw [he, List.countP_append, pairsFrom_countP_result, htl]
    simp [List.countP_cons, isResult]
  · rw [he, List.countP_append, pairsFrom_countP_complete]
    simp [List.countP_cons, isComplete]
  · rw [he, List.length_append, pairsFrom_length sel inputs.length (inputs.take j) 0, htl]
    simp
  · rw [he, List.getLast?_concat]
  · rw [okCount_add_failCount, htl]

/-- Scenario D inputs: two URLs, both of which would succeed. -/
def scenarioD : List (String × FetchOutcome) :=
  [("https://a.example/1", .ok 200 []), ("https://a.example/2", .ok 200 [])]

/-- Witness for C2 (Scenario D): cancellation observed after the 1st
Result and before the 2nd fetch yields exactly 1 Progress event, 1 Result
event, no Complete event, and one terminal cancellation status reporting
the single completed URL. -/
theorem scrape_scenarioD_witness :
    (scrape none (fun x => decide (1 ≤ x)) scenarioD).countP isProgress = 1 ∧
    (scrape none (fun x => decide (1 ≤ x)) scenarioD).countP isResult = 1 ∧
    (scrape none (fun x => decide (1 ≤ x)) scenarioD).countP isComplete = 0 ∧
    (scrape none (fun x => decide (1 ≤ x)) scenarioD).length = 3 ∧
    (scrape none (fun x => decide (1 ≤ x)) scenarioD).getLast? =
      some (.cancelled 1 0) := by
  obtain ⟨h1, h2, h3, h4, h5, h6⟩ :=
    scrape_cancellation_stops_stream none scenarioD 1 (by decide)
  exact ⟨h1, h2, h3, h4, h5.trans (by decide)⟩

end FlexScrape
